import Mathlib

/-!
Shallow embedding of `store.go` from the FileSanctum repository: the
path transform functions, the two path sanitizers, and the
`Write` / `WriteDecrypt` / `Read` / `Has` / `Delete` / `Clear` operations of
the content store, together with a small explicit model of the filesystem
state that the Go code manipulates through the `os` package.

Filesystem modelling conventions:
* a filesystem is a map from full path strings to file contents (byte lists),
  plus a set of "faulty" paths on which filesystem calls fail with an error
  other than `os.ErrNotExist` (directories are not tracked separately);
* a Go call returns `GoResult.ok`, `GoResult.err` (with the message when the
  source supplies one), or `GoResult.crash` for a nil-function dereference;
* `filepath.Join` is modelled for the relative, dot-free paths this store
  builds: components are split on `/`, empty segments are dropped (this is
  what `Join` does to empty elements and what `Clean` does to duplicate and
  trailing separators), and the segments are rejoined with `/`; `.` and `..`
  segments are not resolved by the model, and no settled claim depends on
  their resolution;
* machine integers (`int64` sizes and counts) are modelled as `Nat`: all
  values involved are byte-list lengths, far below any overflow boundary.
-/

/-- Location descriptor returned by a path transform (Go struct `PathKey`). -/
structure PathKey where
  PathName : String
  Filename : String
deriving DecidableEq

/-- Kind of error produced by a modelled filesystem call: `notExist` models
`os.ErrNotExist` (the error matched by `errors.Is(err, os.ErrNotExist)`),
`other` models every other filesystem error (permissions, I/O, ...). -/
inductive GoErr where
  | notExist
  | other
deriving DecidableEq

/-- Result of a Go call in the model: a value, an error carrying its message,
or a crash (what a nil-function dereference does in Go). -/
inductive GoResult (α : Type) where
  | ok : α → GoResult α
  | err : String → GoResult α
  | crash : GoResult α
deriving DecidableEq

/-- Model of the filesystem state. `files` maps a full path to the byte
content of the file stored there; lookup takes the first matching entry, so
consing a new entry overwrites. `faulty` lists the paths on which
filesystem calls fail with an error other than `os.ErrNotExist`. -/
structure FS where
  files : List (String × List Nat)
  faulty : List String
deriving DecidableEq

/-- Go struct `StoreOpts`. A Go function field is nilable, hence `Option`. -/
structure StoreOpts where
  Root : String
  PathTransformFunc : Option (String → PathKey)
  ListenAddr : String

/-- Go struct `Store`. Only the fields the methods of `store.go` actually
read are modelled: the embedded (shadowed, never-read) `StoreOpts`, the
`peers` connection table and its mutex belong to the network collaborator
and are omitted. A Go `*Store` receiver can also be nil; a Lean `Store`
value cannot, so the `s == nil` guard of `openFileForWriting` has no
counterpart in the model. -/
structure Store where
  ListenAddr : String
  Root : String
  storageDir : String
  networkDir : String
  PathTransformFunc : Option (String → PathKey)

/-- The identity transform `DefaultPathTransformFunc` of `store.go`. -/
def DefaultPathTransformFunc : String → PathKey :=
  fun key => { PathName := key, Filename := key }

/-- The local closure `sanitize` that `NewStore`, `Has`, `openFileForWriting`
and `readStream` each define: `strings.ReplaceAll(path, ":", "_")`. -/
def sanitize (path : String) : String :=
  String.mk (path.toList.map (fun c => if c = ':' then '_' else c))

/-- `strings.Split(s, "/")` at the character-list level (single-character
separator). As in Go, splitting the empty string yields `[[]]`. -/
def splitSlash : List Char → List (List Char)
  | [] => [[]]
  | c :: rest =>
    match splitSlash rest with
    | [] => [[c]]
    | h :: t => if c = '/' then [] :: h :: t else (c :: h) :: t

/-- Model of `strings.Join(elems, sep)`. -/
def goStringsJoin (elems : List String) (sep : String) : String :=
  match elems with
  | [] => ""
  | a :: as => as.foldl (fun acc x => acc ++ sep ++ x) a

/-- Model of `filepath.Join` (see the module docstring for its scope):
split every component on `/`, drop empty segments, rejoin with `/`. -/
def goJoin (parts : List String) : String :=
  goStringsJoin ((((parts.map (fun p => splitSlash p.toList)).flatten).filter
    (fun q => q ≠ [])).map String.mk) "/"

/-- Go method `PathKey.FirstPathName`: the first segment of `PathName` split
on `/`; the `len(paths) == 0` branch is unreachable, exactly as in Go. -/
def PathKey.FirstPathName (p : PathKey) : String :=
  match splitSlash p.PathName.toList with
  | [] => ""
  | a :: _ => String.mk a

/-- `q` lies in the subtree rooted at `root`: it is `root` itself or has
`root ++ "/"` as a prefix. This is the set of paths `os.RemoveAll(root)`
removes. -/
def pathWithin (root q : String) : Bool :=
  q == root || (root.toList ++ ['/']).isPrefixOf q.toList

/-- Model of `os.RemoveAll(path)`: removes every file in the subtree rooted
at `path`. Per the documented contract of `os.RemoveAll`, a path at which
nothing exists is not an error; an error is reported only when a fault is
injected inside the subtree. -/
def removeAll (fs : FS) (path : String) : GoResult FS :=
  if fs.faulty.any (fun q => pathWithin path q) then GoResult.err "removeall failed"
  else GoResult.ok ⟨fs.files.filter (fun kv => !(pathWithin path kv.1)), fs.faulty⟩

/-- Model of the error component of `os.Stat(p)`: `none` when the call
succeeds, `some notExist` when no entry exists at `p`, `some other` when a
fault is injected at `p`. -/
def statErr (fs : FS) (p : String) : Option GoErr :=
  if p ∈ fs.faulty then some GoErr.other
  else if (fs.files.lookup p).isSome then none
  else some GoErr.notExist

/-- Create or overwrite the file at `p` with content `b` (the effect of
`os.Create` and of writing through the returned handle). -/
def FS.setFile (fs : FS) (p : String) (b : List Nat) : FS :=
  ⟨(p, b) :: fs.files, fs.faulty⟩

/-- Go function `NewStore`: sanitizes the root and derives the storage and
network areas by suffixing it. `filepath.Join` applied to the single
concatenated component is modelled by `goJoin` of that component. The
returned store always carries `DefaultPathTransformFunc`; the transform
supplied in `opts` is not consulted. -/
def NewStore (opts : StoreOpts) : Store :=
  let sanitizedRoot := sanitize opts.Root
  { ListenAddr := opts.ListenAddr
    Root := sanitizedRoot
    storageDir := goJoin [sanitizedRoot ++ "_storage"]
    networkDir := goJoin [sanitizedRoot ++ "_network"]
    PathTransformFunc := some DefaultPathTransformFunc }

/-- Go method `Store.Has`: resolves
`storageDir/sanitize(id)/sanitize(PathName)/sanitize(Filename)` and returns
`!errors.Is(err, os.ErrNotExist)` for the error of `os.Stat`. The transform
is applied with no nil check, so a store without one crashes. -/
def Store.Has (s : Store) (fs : FS) (id key : String) : GoResult Bool :=
  match s.PathTransformFunc with
  | none => GoResult.crash
  | some f =>
    let pathKey := f key
    let pathNameWithRoot := goJoin [s.storageDir, sanitize id, sanitize pathKey.PathName]
    let fullPathWithRoot := goJoin [pathNameWithRoot, sanitize pathKey.Filename]
    GoResult.ok (if statErr fs fullPathWithRoot = some GoErr.notExist then false else true)

/-- Go method `Store.Clear`: `os.RemoveAll(s.Root)`. -/
def Store.Clear (s : Store) (fs : FS) : GoResult FS :=
  removeAll fs s.Root

/-- Go method `Store.Delete`: removes the subtree rooted at
`fmt.Sprintf("%s/%s/%s", s.Root, id, pathKey.FirstPathName())` — built from
`s.Root` (not `s.storageDir`) by plain string formatting, with no
sanitization. The transform is applied with no nil check. -/
def Store.Delete (s : Store) (fs : FS) (id key : String) : GoResult FS :=
  match s.PathTransformFunc with
  | none => GoResult.crash
  | some f =>
    let pathKey := f key
    let firstPathNameWithRoot := s.Root ++ "/" ++ id ++ "/" ++ pathKey.FirstPathName
    removeAll fs firstPathNameWithRoot

/-- Go method `Store.openFileForWriting`: checks the transform for nil,
resolves the destination directory, `os.MkdirAll`s it, and `os.Create`s the
destination file, returning the filesystem after creation together with the
full destination path. -/
def Store.openFileForWriting (s : Store) (fs : FS) (id key : String) :
    GoResult (FS × String) :=
  match s.PathTransformFunc with
  | none => GoResult.err "PathTransformFunc is not initialized"
  | some f =>
    let pathKey := f key
    let pathNameWithRoot := goJoin [s.storageDir, sanitize id, sanitize pathKey.PathName]
    if pathNameWithRoot ∈ fs.faulty then GoResult.err "mkdirall failed"
    else
      let fullPathWithRoot := goJoin [pathNameWithRoot, sanitize pathKey.Filename]
      if fullPathWithRoot ∈ fs.faulty then GoResult.err "create failed"
      else GoResult.ok (fs.setFile fullPathWithRoot [], fullPathWithRoot)

/-- Go method `Store.writeStream`: `openFileForWriting`, then `io.Copy` of
the whole source stream `r` into the file, returning the byte count. -/
def Store.writeStream (s : Store) (fs : FS) (id key : String) (r : List Nat) :
    GoResult (FS × Nat) :=
  match s.openFileForWriting fs id key with
  | GoResult.err e => GoResult.err e
  | GoResult.crash => GoResult.crash
  | GoResult.ok (fs1, p) => GoResult.ok (fs1.setFile p r, r.length)

/-- Go method `Store.Write`: delegates to `writeStream`. -/
def Store.Write (s : Store) (fs : FS) (id key : String) (r : List Nat) :
    GoResult (FS × Nat) :=
  s.writeStream fs id key r

/-- Go method `Store.WriteDecrypt`: `openFileForWriting`, then
`copyDecrypt(encKey, r, f)`. `copyDecrypt` is defined elsewhere in the
repository (not in the provided source excerpt); modelled from the spec as
an opaque streaming decrypt transform, passed here as a parameter, whose
plaintext output is written and whose length is the returned count. -/
def Store.WriteDecrypt (copyDecrypt : List Nat → List Nat → List Nat)
    (encKey : List Nat) (s : Store) (fs : FS) (id key : String) (r : List Nat) :
    GoResult (FS × Nat) :=
  match s.openFileForWriting fs id key with
  | GoResult.err e => GoResult.err e
  | GoResult.crash => GoResult.crash
  | GoResult.ok (fs1, p) =>
    let plain := copyDecrypt encKey r
    GoResult.ok (fs1.setFile p plain, plain.length)

/-- Go method `Store.readStream`: resolves the same path as `Has` and
`openFileForWriting`, `os.Open`s it, and returns the size reported by
`file.Stat()` together with the content. The transform is applied with no
nil check. -/
def Store.readStream (s : Store) (fs : FS) (id key : String) :
    GoResult (Nat × List Nat) :=
  match s.PathTransformFunc with
  | none => GoResult.crash
  | some f =>
    let pathKey := f key
    let pathNameWithRoot := goJoin [s.storageDir, sanitize id, sanitize pathKey.PathName]
    let fullPathWithRoot := goJoin [pathNameWithRoot, sanitize pathKey.Filename]
    if fullPathWithRoot ∈ fs.faulty then GoResult.err "open failed"
    else
      match fs.files.lookup fullPathWithRoot with
      | none => GoResult.err "file does not exist"
      | some b => GoResult.ok (b.length, b)

/-- Go method `Store.Read`: delegates to `readStream`. -/
def Store.Read (s : Store) (fs : FS) (id key : String) : GoResult (Nat × List Nat) :=
  s.readStream fs id key

/-- `x` reduced to 32 bits (`uint32` arithmetic). -/
def u32 (x : Nat) : Nat := x % 4294967296

/-- Left rotation of a 32-bit word by `n` bits. -/
def rotl (n x : Nat) : Nat := u32 ((x <<< n) ||| (x >>> (32 - n)))

/-- SHA-1 padding (`crypto/sha1`): append `0x80`, zero bytes up to 56 mod 64,
then the bit length as 8 big-endian bytes (`uint64` arithmetic). -/
def sha1Pad (msg : List Nat) : List Nat :=
  let len := msg.length
  let zeros := (119 - (len % 64)) % 64
  let bitLen := (8 * len) % 18446744073709551616
  msg ++ 128 :: (List.replicate zeros 0 ++
    (List.range 8).map (fun j => (bitLen >>> (8 * (7 - j))) % 256))

/-- Group the padded message into 64-byte blocks. -/
def chunk64 (l : List Nat) : List (List Nat) :=
  match l with
  | [] => []
  | a :: rest => (a :: rest).take 64 :: chunk64 ((a :: rest).drop 64)
termination_by l.length
decreasing_by simp [List.length_drop]; omega

/-- Big-endian 32-bit words from the bytes of one block (`uint8` values). -/
def bytesToWords : List Nat → List Nat
  | a :: b :: c :: d :: rest =>
    ((((a % 256) * 256 + b % 256) * 256 + c % 256) * 256 + d % 256) :: bytesToWords rest
  | _ => []

/-- Extend the 16-word schedule to 80 words: each new word is the rotation by
one bit of the XOR of the words 3, 8, 14 and 16 positions back. -/
def buildW (w : Array Nat) : Nat → Array Nat
  | 0 => w
  | i + 1 =>
    let x := w.getD (w.size - 3) 0 ^^^ w.getD (w.size - 8) 0 ^^^
      w.getD (w.size - 14) 0 ^^^ w.getD (w.size - 16) 0
    buildW (w.push (rotl 1 x)) i

/-- SHA-1 round constant for round `i`. -/
def sha1K (i : Nat) : Nat :=
  if i < 20 then 0x5A827999
  else if i < 40 then 0x6ED9EBA1
  else if i < 60 then 0x8F1BBCDC
  else 0xCA62C1D6

/-- SHA-1 round mixing function for round `i`. -/
def sha1F (i b c d : Nat) : Nat :=
  if i < 20 then (b &&& c) ||| ((b ^^^ 4294967295) &&& d)
  else if i < 40 then b ^^^ c ^^^ d
  else if i < 60 then (b &&& c) ||| (b &&& d) ||| (c &&& d)
  else b ^^^ c ^^^ d

/-- One SHA-1 round on the working state `(a, b, c, d, e)`. -/
def sha1Round (w : Array Nat) (st : Nat × Nat × Nat × Nat × Nat) (i : Nat) :
    Nat × Nat × Nat × Nat × Nat :=
  match st with
  | (a, b, c, d, e) =>
    (u32 (rotl 5 a + sha1F i b c d + e + sha1K i + w.getD i 0), a, rotl 30 b, c, d)

/-- The five 32-bit chaining words of SHA-1. -/
structure SHA1State where
  h0 : Nat
  h1 : Nat
  h2 : Nat
  h3 : Nat
  h4 : Nat

/-- SHA-1 initial chaining value. -/
def sha1Init : SHA1State := ⟨0x67452301, 0xEFCDAB89, 0x98BADCFE, 0x10325476, 0xC3D2E1F0⟩

/-- SHA-1 compression of one 64-byte block into the chaining state. -/
def processBlock (st : SHA1State) (block : List Nat) : SHA1State :=
  let w := buildW (Array.mk (bytesToWords block)) 64
  match (List.range 80).foldl (sha1Round w) (st.h0, st.h1, st.h2, st.h3, st.h4) with
  | (a, b, c, d, e) =>
    ⟨u32 (st.h0 + a), u32 (st.h1 + b), u32 (st.h2 + c), u32 (st.h3 + d), u32 (st.h4 + e)⟩

/-- The four big-endian bytes of a 32-bit word. -/
def wordBytes (w : Nat) : List Nat :=
  [(w >>> 24) % 256, (w >>> 16) % 256, (w >>> 8) % 256, w % 256]

/-- `sha1.Sum` of `crypto/sha1`: the 20-byte SHA-1 digest of a byte list. -/
def sha1 (msg : List Nat) : List Nat :=
  let final := (chunk64 (sha1Pad msg)).foldl processBlock sha1Init
  wordBytes final.h0 ++ wordBytes final.h1 ++ wordBytes final.h2 ++
    wordBytes final.h3 ++ wordBytes final.h4

/-- The digit table of Go `encoding/hex` (`"0123456789abcdef"`). -/
def hextable : List Char := "0123456789abcdef".toList

/-- One hex digit. -/
def hexDigit (n : Nat) : Char := hextable.getD n '0'

/-- `hex.EncodeToString` at the character level: the high nibble then the low
nibble of each byte (`b / 16` and `b % 16` are the source's `b >> 4` and
`b & 0x0f` on byte values). -/
def hexChars : List Nat → List Char
  | [] => []
  | b :: bs => hexDigit (b / 16) :: hexDigit (b % 16) :: hexChars bs

/-- The UTF-8 bytes of a string (Go `[]byte(key)`). -/
def utf8Bytes (s : String) : List Nat := s.toUTF8.toList.map (fun b => b.toNat)

/-- Go function `CASPathTransformFunc`: SHA-1 the key, hex-encode, cut the
40-character digest into 40/5 = 8 fragments of 5 characters, join them with
`/` for `PathName`, and use the whole digest as `Filename`. -/
def CASPathTransformFunc (key : String) : PathKey :=
  let hashStr := hexChars (sha1 (utf8Bytes key))
  let blocksize := 5
  let sliceLen := hashStr.length / blocksize
  let paths := (List.range sliceLen).map
    (fun i => String.mk ((hashStr.drop (i * blocksize)).take blocksize))
  { PathName := goStringsJoin paths "/", Filename := String.mk hashStr }

/-- The character class `[a-zA-Z0-9_-]` kept by the strict sanitizer. -/
def allowedChar (c : Char) : Bool :=
  (decide ('a' ≤ c ∧ c ≤ 'z')) || (decide ('A' ≤ c ∧ c ≤ 'Z')) ||
    (decide ('0' ≤ c ∧ c ≤ '9')) || c == '_' || c == '-'

/-- `p` is a prefix of `s` (Go `strings.HasPrefix` on character lists). -/
def startsWithChars (p s : List Char) : Bool :=
  match p, s with
  | [], _ => true
  | _ :: _, [] => false
  | a :: ps, b :: ss => a == b && startsWithChars ps ss

/-- Go function `sanitizePathComponent`: strip every character outside
`[a-zA-Z0-9_-]` (the effect of replacing `[^a-zA-Z0-9_-]+` matches with the
empty string), then prepend `"file_"` when the lowercased result starts with
`con` or `aux`. `Char.toLower` agrees with Go `strings.ToLower` on the ASCII
output of the filter. -/
def sanitizePathComponent (input : String) : String :=
  let safe := input.toList.filter allowedChar
  let lowered := safe.map Char.toLower
  if startsWithChars ['c', 'o', 'n'] lowered || startsWithChars ['a', 'u', 'x'] lowered
  then String.mk (['f', 'i', 'l', 'e', '_'] ++ safe)
  else String.mk safe

/-- `s` has a `..` path segment when split on `/`. -/
def hasDotDotSegment (s : String) : Bool :=
  (splitSlash s.toList).contains ['.', '.']

theorem toList_mk (l : List Char) : (String.mk l).toList = l := rfl

theorem lookup_setFile (fs : FS) (p : String) (b : List Nat) :
    (fs.setFile p b).files.lookup p = some b := by
  simp [FS.setFile, List.lookup]

theorem setFile_faulty (fs : FS) (p : String) (b : List Nat) :
    (fs.setFile p b).faulty = fs.faulty := rfl

theorem statErr_ne_notExist_of_lookup (fs : FS) (p : String) (b : List Nat)
    (h : fs.files.lookup p = some b) : statErr fs p ≠ some GoErr.notExist := by
  unfold statErr
  split_ifs with hA hB
  · simp
  · simp
  · exact absurd (by simp [h]) hB

theorem writeStream_ok (s : Store) (fs fs2 : FS) (id key : String) (r : List Nat) (n : Nat)
    (h : Store.Write s fs id key r = GoResult.ok (fs2, n)) :
    ∃ f, s.PathTransformFunc = some f ∧
      goJoin [s.storageDir, sanitize id, sanitize (f key).PathName] ∉ fs.faulty ∧
      goJoin [goJoin [s.storageDir, sanitize id, sanitize (f key).PathName],
        sanitize (f key).Filename] ∉ fs.faulty ∧
      fs2 = (fs.setFile (goJoin [goJoin [s.storageDir, sanitize id,
          sanitize (f key).PathName], sanitize (f key).Filename]) []).setFile
        (goJoin [goJoin [s.storageDir, sanitize id, sanitize (f key).PathName],
          sanitize (f key).Filename]) r ∧
      n = r.length := by
  unfold Store.Write Store.writeStream at h
  cases ho : s.openFileForWriting fs id key with
  | err e => rw [ho] at h; simp at h
  | crash => rw [ho] at h; simp at h
  | ok v =>
    obtain ⟨fs1, p⟩ := v
    rw [ho] at h
    simp only [GoResult.ok.injEq, Prod.mk.injEq] at h
    obtain ⟨h1, h2⟩ := h
    unfold Store.openFileForWriting at ho
    cases hpt : s.PathTransformFunc with
    | none => rw [hpt] at ho; simp at ho
    | some f =>
      rw [hpt] at ho
      simp only at ho
      split_ifs at ho with hm hc
      simp only [GoResult.ok.injEq, Prod.mk.injEq] at ho
      obtain ⟨ho1, ho2⟩ := ho
      subst ho2
      refine ⟨f, rfl, hm, hc, ?_, h2.symm⟩
      rw [← h1, ← ho1]

/-- The store of the spec scenario: `NewStore` with root `"net"`. -/
def netStore : Store := NewStore ⟨"net", none, ""⟩

/-- The filesystem after writing bytes `"hi"` for key `"hello.txt"` in
namespace `"peerA"` into an empty filesystem through `netStore`. -/
def fsHelloWritten : FS :=
  ⟨[("net_storage/peerA/hello.txt/hello.txt", [104, 105]),
    ("net_storage/peerA/hello.txt/hello.txt", [])], []⟩

/-- A store whose transform function field is nil, as a Go caller can build
with a struct literal or by zero-valuing the field. -/
def nilStore : Store :=
  { ListenAddr := "", Root := "net", storageDir := "net_storage",
    networkDir := "net_network", PathTransformFunc := none }

/-- A filesystem with an injected non-not-found fault at the resolved path of
`("peerA", "hello.txt")` under `netStore`, and no file there. -/
def faultyFS : FS := ⟨[], ["net_storage/peerA/hello.txt/hello.txt"]⟩

/-- Claim C1: a successful `Write(id, k, b)` followed by `Read(id, k)`
returns a stream whose bytes equal `b` and a reported size equal to the
length of `b`; `Write` and `Read` resolve the same destination path, and
`Read` reports the filesystem size of the written file. -/
theorem write_read_roundtrip (s : Store) (fs fs2 : FS) (id key : String)
    (b : List Nat) (n : Nat)
    (h : Store.Write s fs id key b = GoResult.ok (fs2, n)) :
    Store.Read s fs2 id key = GoResult.ok (b.length, b) ∧ n = b.length := by
  obtain ⟨f, hpt, hdir, hfile, hfs2, hn⟩ := writeStream_ok s fs fs2 id key b n h
  subst hfs2
  refine ⟨?_, hn⟩
  have hlook := lookup_setFile ((fs.setFile (goJoin [goJoin [s.storageDir, sanitize id,
    sanitize (f key).PathName], sanitize (f key).Filename]) []))
    (goJoin [goJoin [s.storageDir, sanitize id, sanitize (f key).PathName],
      sanitize (f key).Filename]) b
  unfold Store.Read Store.readStream
  rw [hpt]
  simp only
  rw [setFile_faulty, setFile_faulty, if_neg hfile, hlook]

/-- Claim C9: immediately after a successful `Write(id, k, ·)`, `Has(id, k)`
returns `true`: both operations resolve and sanitize the same destination
path, and `Write` creates the file there. -/
theorem write_then_has (s : Store) (fs fs2 : FS) (id key : String)
    (b : List Nat) (n : Nat)
    (h : Store.Write s fs id key b = GoResult.ok (fs2, n)) :
    Store.Has s fs2 id key = GoResult.ok true := by
  obtain ⟨f, hpt, hdir, hfile, hfs2, hn⟩ := writeStream_ok s fs fs2 id key b n h
  subst hfs2
  have hlook := lookup_setFile ((fs.setFile (goJoin [goJoin [s.storageDir, sanitize id,
    sanitize (f key).PathName], sanitize (f key).Filename]) []))
    (goJoin [goJoin [s.storageDir, sanitize id, sanitize (f key).PathName],
      sanitize (f key).Filename]) b
  have hne := statErr_ne_notExist_of_lookup _ _ _ hlook
  unfold Store.Has
  rw [hpt]
  simp only
  rw [if_neg hne]

/-- Witness for C1: the spec scenario write of `"hi"` then read. -/
theorem write_read_roundtrip_witness :
    Store.Read netStore fsHelloWritten "peerA" "hello.txt" = GoResult.ok (2, [104, 105]) ∧
      (2 : Nat) = 2 :=
  write_read_roundtrip netStore ⟨[], []⟩ fsHelloWritten "peerA" "hello.txt"
    [104, 105] 2 (by decide)

/-- Witness for C9: after the scenario write, `Has` reports `true`. -/
theorem write_then_has_witness :
    Store.Has netStore fsHelloWritten "peerA" "hello.txt" = GoResult.ok true :=
  write_then_has netStore ⟨[], []⟩ fsHelloWritten "peerA" "hello.txt" [104, 105] 2 (by decide)

/-- Claim C2 (code bug exhibited): `Clear` runs `os.RemoveAll(s.Root)`, but a
successful write places the object under the sibling directory
`s.Root ++ "_storage"`; at the concrete failing input the write succeeds,
`Clear` succeeds while removing nothing of the storage area, and `Has`
still reports `true` — the claim requires `false`. -/
theorem clear_leaves_written_object :
    Store.Write netStore ⟨[], []⟩ "peerA" "hello.txt" [104, 105] =
      GoResult.ok (fsHelloWritten, 2) ∧
    Store.Clear netStore fsHelloWritten = GoResult.ok fsHelloWritten ∧
    Store.Has netStore fsHelloWritten "peerA" "hello.txt" = GoResult.ok true := by
  refine ⟨by decide, by decide, by decide⟩

/-- Claim C3 (code bug exhibited): `Delete` removes the subtree at
`s.Root/id/firstSegment` (unsanitized, under the root), while the object
written for the same `(id, key)` lives under `s.Root ++ "_storage"`; at the
concrete failing input `Delete` succeeds, removes nothing, and the object
still exists at its resolved path (`Has` reports `true`). -/
theorem delete_leaves_written_object :
    Store.Write netStore ⟨[], []⟩ "peerA" "hello.txt" [104, 105] =
      GoResult.ok (fsHelloWritten, 2) ∧
    Store.Delete netStore fsHelloWritten "peerA" "hello.txt" = GoResult.ok fsHelloWritten ∧
    Store.Has netStore fsHelloWritten "peerA" "hello.txt" = GoResult.ok true := by
  refine ⟨by decide, by decide, by decide⟩

/-- Claim C10: deleting a key whose computed first-shard-segment subtree
contains no filesystem entry returns `nil` (success) and leaves the
filesystem state unchanged. -/
theorem delete_missing_is_ok (s : Store) (fs : FS) (id key : String)
    (f : String → PathKey) (hf : s.PathTransformFunc = some f)
    (hfaulty : ∀ q ∈ fs.faulty,
      pathWithin (s.Root ++ "/" ++ id ++ "/" ++ (f key).FirstPathName) q = false)
    (hfiles : ∀ kv ∈ fs.files,
      pathWithin (s.Root ++ "/" ++ id ++ "/" ++ (f key).FirstPathName) kv.1 = false) :
    Store.Delete s fs id key = GoResult.ok fs := by
  unfold Store.Delete
  rw [hf]
  simp only
  unfold removeAll
  rw [if_neg]
  · have hfilter : fs.files.filter (fun kv =>
        !(pathWithin (s.Root ++ "/" ++ id ++ "/" ++ (f key).FirstPathName) kv.1)) = fs.files := by
      rw [List.filter_eq_self]
      intro kv hkv
      rw [hfiles kv hkv]
      rfl
    rw [hfilter]
  · intro hany
    rw [List.any_eq_true] at hany
    obtain ⟨q, hq, hw⟩ := hany
    rw [hfaulty q hq] at hw
    exact absurd hw (by simp)

/-- Witness for C10: deleting from an empty filesystem through `netStore`. -/
theorem delete_missing_is_ok_witness :
    Store.Delete netStore ⟨[], []⟩ "peerA" "hello.txt" = GoResult.ok ⟨[], []⟩ :=
  delete_missing_is_ok netStore ⟨[], []⟩ "peerA" "hello.txt" DefaultPathTransformFunc
    rfl (by simp) (by simp)

/-- Length of the hex encoding: two characters per byte. -/
theorem hexChars_length (bs : List Nat) : (hexChars bs).length = 2 * bs.length := by
  induction bs with
  | nil => simp [hexChars]
  | cons b bs ih =>
    simp [hexChars, ih]
    omega

/-- The SHA-1 digest always has 20 bytes. -/
theorem sha1_length (msg : List Nat) : (sha1 msg).length = 20 := by
  simp [sha1, wordBytes]

/-- The CAS filename (the hex digest) always has 40 characters. -/
theorem cas_filename_length (key : String) :
    (CASPathTransformFunc key).Filename.length = 40 := by
  show (hexChars (sha1 (utf8Bytes key))).length = 40
  rw [hexChars_length, sha1_length]

/-- Claim C5 (amended): `NewStore` does not consult the transform supplied in
its options: every store it builds carries the identity transform
`DefaultPathTransformFunc`, and swapping in another transform requires
mutating the field after construction. -/
theorem newStore_installs_default (opts : StoreOpts) :
    (NewStore opts).PathTransformFunc = some DefaultPathTransformFunc := rfl

/-- Counterexample for C5 as stated: a store constructed with the CAS
transform in its options does not use that transform. -/
theorem newStore_ignores_supplied_cas :
    (NewStore ⟨"net", some CASPathTransformFunc, ""⟩).PathTransformFunc ≠
      some CASPathTransformFunc := by
  intro h
  have h2 : DefaultPathTransformFunc = CASPathTransformFunc := Option.some.inj h
  have h3 : (DefaultPathTransformFunc "a").Filename.length =
      (CASPathTransformFunc "a").Filename.length := by rw [h2]
  rw [cas_filename_length] at h3
  exact absurd h3 (by decide)

/-- Claim C6 (amended): for any store with a configured transform, `Has` is
total and never reports an error; it returns `false` exactly when `os.Stat`
fails with a not-found error, and `true` otherwise — in particular it
returns `true`, not `false`, on any filesystem error other than not-found. -/
theorem has_total_characterization (s : Store) (fs : FS) (id key : String)
    (f : String → PathKey) (hf : s.PathTransformFunc = some f) :
    Store.Has s fs id key = GoResult.ok
      (if statErr fs (goJoin [goJoin [s.storageDir, sanitize id, sanitize (f key).PathName],
        sanitize (f key).Filename]) = some GoErr.notExist then false else true) := by
  unfold Store.Has
  rw [hf]

/-- Witness for C6: the characterization evaluated at the scenario store on
the empty filesystem. -/
theorem has_total_characterization_witness :
    Store.Has netStore ⟨[], []⟩ "peerA" "hello.txt" = GoResult.ok
      (if statErr ⟨[], []⟩ (goJoin [goJoin [netStore.storageDir, sanitize "peerA",
        sanitize (DefaultPathTransformFunc "hello.txt").PathName],
        sanitize (DefaultPathTransformFunc "hello.txt").Filename]) = some GoErr.notExist
      then false else true) :=
  has_total_characterization netStore ⟨[], []⟩ "peerA" "hello.txt"
    DefaultPathTransformFunc rfl

/-- Counterexample for C6 as stated: with a non-not-found fault injected at
the resolved path, `Has` returns `true`, where the claim requires `false`. -/
theorem has_true_on_other_error :
    statErr faultyFS "net_storage/peerA/hello.txt/hello.txt" = some GoErr.other ∧
    Store.Has netStore faultyFS "peerA" "hello.txt" = GoResult.ok true := by
  refine ⟨by decide, by decide⟩

/-- Claim C7 (amended): with a nil transform function, `Write` and
`WriteDecrypt` surface the misconfiguration error immediately (through the
nil check of `openFileForWriting`), while `Has`, `Read` and `Delete` perform
no check and dereference the nil function — a crash, not an error. -/
theorem nil_transform_behavior (s : Store) (fs : FS) (id key : String)
    (r encKey : List Nat) (copyDecrypt : List Nat → List Nat → List Nat)
    (h : s.PathTransformFunc = none) :
    Store.Write s fs id key r = GoResult.err "PathTransformFunc is not initialized" ∧
    Store.WriteDecrypt copyDecrypt encKey s fs id key r =
      GoResult.err "PathTransformFunc is not initialized" ∧
    Store.Has s fs id key = GoResult.crash ∧
    Store.Read s fs id key = GoResult.crash ∧
    Store.Delete s fs id key = GoResult.crash := by
  refine ⟨?_, ?_, ?_, ?_, ?_⟩ <;>
    simp [Store.Write, Store.writeStream, Store.WriteDecrypt, Store.openFileForWriting,
      Store.Has, Store.Read, Store.readStream, Store.Delete, h]

/-- Witness for C7 (amended): the five operations evaluated on `nilStore`. -/
theorem nil_transform_behavior_witness :
    Store.Write nilStore ⟨[], []⟩ "peerA" "hello.txt" [104, 105] =
      GoResult.err "PathTransformFunc is not initialized" ∧
    Store.WriteDecrypt (fun _ x => x) [] nilStore ⟨[], []⟩ "peerA" "hello.txt" [104, 105] =
      GoResult.err "PathTransformFunc is not initialized" ∧
    Store.Has nilStore ⟨[], []⟩ "peerA" "hello.txt" = GoResult.crash ∧
    Store.Read nilStore ⟨[], []⟩ "peerA" "hello.txt" = GoResult.crash ∧
    Store.Delete nilStore ⟨[], []⟩ "peerA" "hello.txt" = GoResult.crash :=
  nil_transform_behavior nilStore ⟨[], []⟩ "peerA" "hello.txt" [104, 105] []
    (fun _ x => x) rfl

/-- Counterexample for C7 as stated: `Has` on a store with a nil transform
crashes instead of surfacing a misconfiguration error. -/
theorem has_crashes_without_transform :
    Store.Has nilStore ⟨[], []⟩ "peerA" "hello.txt" = GoResult.crash := rfl

/-- Each byte emitted by `wordBytes` is below 256. -/
theorem wordBytes_lt (w : Nat) : ∀ b ∈ wordBytes w, b < 256 := by
  simp [wordBytes]
  omega

/-- Each byte of a SHA-1 digest is below 256. -/
theorem sha1_lt (msg : List Nat) : ∀ b ∈ sha1 msg, b < 256 := by
  intro b hb
  simp only [sha1] at hb
  repeat' rcases List.mem_append.mp hb with hb | hb
  all_goals exact wordBytes_lt _ b hb

/-- A hex digit of index below 16 is drawn from the hex table. -/
theorem hexDigit_mem (n : Nat) (h : n < 16) : hexDigit n ∈ hextable := by
  interval_cases n <;> decide

/-- Every character of the hex encoding of a byte list is a lowercase hex
digit. -/
theorem hexChars_mem (bs : List Nat) (hb : ∀ b ∈ bs, b < 256) :
    ∀ c ∈ hexChars bs, c ∈ hextable := by
  induction bs with
  | nil => simp [hexChars]
  | cons b bs ih =>
    intro c hc
    have hb0 : b < 256 := hb b (by simp)
    simp only [hexChars, List.mem_cons] at hc
    rcases hc with rfl | rfl | hc
    · exact hexDigit_mem _ (by omega)
    · exact hexDigit_mem _ (by omega)
    · exact ih (fun x hx => hb x (by simp [hx])) c hc

/-- Folding the separator-append step can only grow the string. -/
theorem foldlAppend_length_ge (sep : String) (l : List String) :
    ∀ init : String, init.length ≤
      (l.foldl (fun acc x => acc ++ sep ++ x) init).length := by
  induction l with
  | nil => intro init; simp
  | cons a as ih =>
    intro init
    rw [List.foldl_cons]
    refine le_trans ?_ (ih (init ++ sep ++ a))
    simp only [String.length_append]
    omega

/-- A join whose first element is nonempty is nonempty. -/
theorem goStringsJoin_ne_empty (a : String) (as : List String) (sep : String)
    (ha : 0 < a.length) : goStringsJoin (a :: as) sep ≠ "" := by
  intro h
  have hge := foldlAppend_length_ge sep as a
  rw [show goStringsJoin (a :: as) sep =
    as.foldl (fun acc x => acc ++ sep ++ x) a from rfl] at h
  rw [h] at hge
  have hz : ("" : String).length = 0 := rfl
  omega

/-- Claim C4: for every key (including the empty string),
`CASPathTransformFunc` returns a Location whose `Filename` is the
40-character lowercase-hex SHA-1 digest of the UTF-8 bytes of the key, and
whose `PathName` consists of exactly 8 fragments of 5 characters each, cut
in order from that digest and joined with `/`; the Location is non-empty.
(The function is a total Lean function of the key alone, so purity,
determinism and absence of failure hold by construction.) -/
theorem cas_transform_shape (key : String) :
    (CASPathTransformFunc key).Filename = String.mk (hexChars (sha1 (utf8Bytes key))) ∧
    (CASPathTransformFunc key).Filename.length = 40 ∧
    (∀ c ∈ (CASPathTransformFunc key).Filename.toList, c ∈ hextable) ∧
    (∃ parts : List String, parts.length = 8 ∧ (∀ p ∈ parts, p.length = 5) ∧
      parts = (List.range 8).map (fun i =>
        String.mk (((CASPathTransformFunc key).Filename.toList.drop (i * 5)).take 5)) ∧
      (CASPathTransformFunc key).PathName = goStringsJoin parts "/") ∧
    (CASPathTransformFunc key).Filename ≠ "" ∧
    (CASPathTransformFunc key).PathName ≠ "" := by
  have hlen : (hexChars (sha1 (utf8Bytes key))).length = 40 := by
    rw [hexChars_length, sha1_length]
  have hmem : ∀ c ∈ hexChars (sha1 (utf8Bytes key)), c ∈ hextable :=
    hexChars_mem _ (sha1_lt _)
  have e : (hexChars (sha1 (utf8Bytes key))).length / 5 = 8 := by rw [hlen]
  have hpn : (CASPathTransformFunc key).PathName =
      goStringsJoin ((List.range 8).map (fun i =>
        String.mk (((hexChars (sha1 (utf8Bytes key))).drop (i * 5)).take 5))) "/" := by
    conv_lhs => rw [show (CASPathTransformFunc key).PathName =
      goStringsJoin ((List.range ((hexChars (sha1 (utf8Bytes key))).length / 5)).map
        (fun i => String.mk (((hexChars (sha1 (utf8Bytes key))).drop (i * 5)).take 5)))
        "/" from rfl]
    rw [e]
  refine ⟨rfl, cas_filename_length key, ?_, ?_, ?_, ?_⟩
  · intro c hc
    exact hmem c hc
  · refine ⟨(List.range 8).map (fun i =>
      String.mk (((hexChars (sha1 (utf8Bytes key))).drop (i * 5)).take 5)),
      by simp, ?_, rfl, hpn⟩
    intro p hp
    simp only [List.mem_map, List.mem_range] at hp
    obtain ⟨i, hi, rfl⟩ := hp
    show (((hexChars (sha1 (utf8Bytes key))).drop (i * 5)).take 5).length = 5
    rw [List.length_take, List.length_drop, hlen]
    omega
  · intro h
    have h0 : (CASPathTransformFunc key).Filename.length = 0 := by rw [h]; rfl
    have h40 := cas_filename_length key
    omega
  · rw [hpn, show List.range 8 = 0 :: [1, 2, 3, 4, 5, 6, 7] from rfl, List.map_cons]
    apply goStringsJoin_ne_empty
    show 0 < (((hexChars (sha1 (utf8Bytes key))).drop (0 * 5)).take 5).length
    rw [List.length_take, List.length_drop, hlen]
    omega

/-- A character accepted by the strict filter is not a dot, a separator, or
a colon. -/
theorem allowedChar_consequences (c : Char) (h : allowedChar c = true) :
    c ≠ '.' ∧ c ≠ '/' ∧ c ≠ ':' := by
  refine ⟨?_, ?_, ?_⟩ <;> rintro rfl <;> exact absurd h (by decide)

/-- A character list without a separator is a single segment. -/
theorem splitSlash_no_slash (l : List Char) (h : '/' ∉ l) : splitSlash l = [l] := by
  induction l with
  | nil => rfl
  | cons c rest ih =>
    have hc : c ≠ '/' := fun hcc => h (by simp [hcc])
    have hr : '/' ∉ rest := fun hm => h (by simp [hm])
    simp only [splitSlash, ih hr]
    simp [hc]

/-- A string with no separator and no dot has no `..` segment. -/
theorem hasDotDot_false_of_chars (s : String)
    (hslash : ∀ c ∈ s.toList, c ≠ '/') (hdot : ∀ c ∈ s.toList, c ≠ '.') :
    hasDotDotSegment s = false := by
  unfold hasDotDotSegment
  rw [splitSlash_no_slash _ (fun hm => hslash _ hm rfl)]
  have hne : s.toList ≠ ['.', '.'] := by
    intro he
    exact hdot '.' (by rw [he]; simp) rfl
  simp only [List.contains_cons, List.contains_nil, Bool.or_false, beq_eq_false_iff_ne]
  exact fun he => hne he.symm

/-- Claim C8 (amended): both sanitizers are deterministic (total functions).
For every input, the strict sanitizer's output contains only characters in
`[A-Za-z0-9_-]` — hence no `.` and no `/`, so no `..` segment and no path
separator — and never starts (case-insensitively) with the reserved prefixes
`con` or `aux`, the renaming prefix `file_` being applied when the stripped
form would. The lenient sanitizer only replaces every `:` by `_`: its output
contains no colon, but it does not remove `..` sequences, so it alone does
not prevent traversal. -/
theorem sanitizers_safety (input : String) :
    (∀ c ∈ (sanitizePathComponent input).toList, allowedChar c = true) ∧
    (∀ c ∈ (sanitizePathComponent input).toList, c ≠ '.' ∧ c ≠ '/') ∧
    hasDotDotSegment (sanitizePathComponent input) = false ∧
    startsWithChars ['c', 'o', 'n']
      ((sanitizePathComponent input).toList.map Char.toLower) = false ∧
    startsWithChars ['a', 'u', 'x']
      ((sanitizePathComponent input).toList.map Char.toLower) = false ∧
    (∀ c ∈ (sanitize input).toList, c ≠ ':') := by
  have hall : ∀ c ∈ (sanitizePathComponent input).toList, allowedChar c = true := by
    simp only [sanitizePathComponent]
    split_ifs with h
    · intro c hc
      rw [toList_mk] at hc
      rcases List.mem_append.mp hc with hc | hc
      · fin_cases hc <;> decide
      · exact (List.mem_filter.mp hc).2
    · intro c hc
      rw [toList_mk] at hc
      exact (List.mem_filter.mp hc).2
  have hds : ∀ c ∈ (sanitizePathComponent input).toList, c ≠ '.' ∧ c ≠ '/' :=
    fun c hc => ⟨(allowedChar_consequences c (hall c hc)).1,
      (allowedChar_consequences c (hall c hc)).2.1⟩
  have hdd : hasDotDotSegment (sanitizePathComponent input) = false :=
    hasDotDot_false_of_chars _ (fun c hc => (hds c hc).2) (fun c hc => (hds c hc).1)
  have hcon : startsWithChars ['c', 'o', 'n']
      ((sanitizePathComponent input).toList.map Char.toLower) = false := by
    simp only [sanitizePathComponent]
    split_ifs with h
    · rfl
    · simp only [Bool.or_eq_true, not_or, Bool.not_eq_true] at h
      exact h.1
  have haux : startsWithChars ['a', 'u', 'x']
      ((sanitizePathComponent input).toList.map Char.toLower) = false := by
    simp only [sanitizePathComponent]
    split_ifs with h
    · rfl
    · simp only [Bool.or_eq_true, not_or, Bool.not_eq_true] at h
      exact h.2
  have hcolon : ∀ c ∈ (sanitize input).toList, c ≠ ':' := by
    intro c hc
    simp only [sanitize, toList_mk, List.mem_map] at hc
    obtain ⟨a, ha, rfl⟩ := hc
    split_ifs with h1
    · decide
    · exact h1
  exact ⟨hall, hds, hdd, hcon, haux, hcolon⟩

/-- Counterexample for C8 as stated: the lenient sanitizer leaves `".."`
untouched, so its output is itself a `..` traversal segment. -/
theorem lenient_sanitizer_keeps_dotdot :
    sanitize ".." = ".." ∧ hasDotDotSegment (sanitize "..") = true := by
  refine ⟨by decide, by decide⟩
